import Mathlib

/-!
Verification development for the ClusterSecret operator (`src/handlers.py`,
`src/models.py`).  Each kopf handler is embedded as a pure Lean function from
an explicit in-memory cache and an environment (the outcomes of the external
Kubernetes API calls) to a result: the new cache together with a trace of the
effects the handler performed, in program order.  Cache writes/removals are
recorded in the trace as effects so that ordering properties between cache
operations and API calls can be stated.
-/

namespace ClusterSecretOp

/-- A Python value as used by the handlers: `None`, strings, lists and
string-keyed dicts.  (The handlers only ever inspect these shapes.) -/
inductive PyVal where
  | none
  | str (s : String)
  | list (xs : List PyVal)
  | dict (entries : List (String × PyVal))

/-- Python `d.get(k, default)`.  The handlers only call `.get` on values that
are dicts at runtime; on a non-dict receiver (where Python would raise
`AttributeError`) we return the default, and theorems only use dict-shaped
receivers. -/
def PyVal.getD (d : PyVal) (k : String) (dflt : PyVal) : PyVal :=
  match d with
  | PyVal.dict es => (List.lookup k es).getD dflt
  | _ => dflt

/-- `d.get(k, default)` when the handler expects a string result (e.g.
`body.get('type', 'Opaque')`).  Non-string values fall back to the default;
theorems only use well-typed inputs. -/
def PyVal.getStrD (d : PyVal) (k : String) (dflt : String) : String :=
  match d.getD k (PyVal.str dflt) with
  | PyVal.str s => s
  | _ => dflt

/-- Read a Python list of strings (e.g. a `syncedns` status value).  Non-list
values and non-string elements are dropped; theorems only use well-typed
inputs. -/
def PyVal.toStrList : PyVal → List String
  | PyVal.list xs => xs.filterMap fun v =>
      match v with
      | PyVal.str s => Option.some s
      | _ => Option.none
  | _ => []

/-- Python truthiness test (`if not obj`): `None`, `''`, `[]`, `{}` are falsy. -/
def PyVal.isFalsy : PyVal → Bool
  | PyVal.none => true
  | PyVal.str s => s == ""
  | PyVal.list xs => xs.isEmpty
  | PyVal.dict es => es.isEmpty

/-- Python `v == s` for a string literal `s`: true exactly when `v` is that
string. -/
def pyEqStr (v : PyVal) (s : String) : Bool :=
  match v with
  | PyVal.str t => t == s
  | _ => false

/-- `models.BaseClusterSecret` (the alias form of `models.py`). -/
structure BaseClusterSecret where
  uid : String
  name : String
  data : PyVal
  metadata : PyVal
  synced_namespace : List String
  type : String := "Opaque"
  match_namespace : PyVal := PyVal.none
  avoid_namespaces : PyVal := PyVal.none

/-- The in-memory cache (`csecs_cache`): a uid-keyed dict, modelled as an
association list in insertion order.
Modelled from the spec: `cache.MemoryCache` (file `cache.py` is not under
`src/`); §4.3 specifies a process-wide mapping `uid → CachedClusterSecret`
with `set`, `get`, `remove` and snapshot `all()`. -/
abbrev Cache := List (String × BaseClusterSecret)

/-- `csecs_cache.get_cluster_secret(uid)`: `None` when absent (dict lookup:
first — unique — entry with the key). -/
def cacheGet : Cache → String → Option BaseClusterSecret
  | [], _ => Option.none
  | kv :: t, u => if kv.1 = u then Option.some kv.2 else cacheGet t u

/-- `csecs_cache.set_cluster_secret(e)`: replace in place when the key exists
(Python dicts keep insertion order), append otherwise. -/
def cacheSet (c : Cache) (e : BaseClusterSecret) : Cache :=
  if c.any (fun kv => kv.1 == e.uid) then
    c.map fun kv => if kv.1 == e.uid then (kv.1, e) else kv
  else
    c ++ [(e.uid, e)]

/-- `csecs_cache.remove_cluster_secret(uid)` (the `KeyError` on a missing key
is caught by the caller, so removal is effectively total). -/
def cacheRemove (c : Cache) (uid : String) : Cache :=
  c.filter fun kv => kv.1 != uid

/-- `csecs_cache.all_cluster_secret()`: a snapshot of the values. -/
def cacheAll (c : Cache) : List BaseClusterSecret :=
  c.map Prod.snd

/-- Outcome of `v1.read_namespace`: either a namespace with a status phase, or
an `ApiException` with an HTTP status. -/
inductive NsRead where
  | phase (p : String)
  | apiErr (status : Nat)

/-- Outcomes of the external Kubernetes API calls made by the handlers
(`kubernetes_utils.py` is not under `src/`; these calls are external I/O and
the handlers only consume the listed outcomes).
`getNsList` is `get_ns_list(logger, body, v1)`, the fresh target-namespace
computation for a body; `readNamespace` is `v1.read_namespace`; `patchOk`
is whether `patch_clustersecret_status` succeeds. -/
structure Env where
  getNsList : PyVal → List String
  readNamespace : String → NsRead
  patchOk : String → List String → Bool

/-- One observable effect of a handler, in program order. -/
inductive Eff where
  | syncSecret (ns : String) (body : PyVal)
  | deleteSecret (ns : String) (name : String)
  | patchStatus (name : String) (syncedns : List String) (ok : Bool)
  | readNamespace (ns : String)
  | cacheSnapshot
  | cacheSetE (uid : String)
  | cacheRemoveE (uid : String)
  | logWarning (csecName : String)

def Eff.isSync : Eff → Bool
  | Eff.syncSecret _ _ => true
  | _ => false

def Eff.isDelete : Eff → Bool
  | Eff.deleteSecret _ _ => true
  | _ => false

def Eff.isPatch : Eff → Bool
  | Eff.patchStatus _ _ _ => true
  | _ => false

def Eff.isCacheWrite : Eff → Bool
  | Eff.cacheSetE _ => true
  | Eff.cacheRemoveE _ => true
  | _ => false

def Eff.isWarning : Eff → Bool
  | Eff.logWarning _ => true
  | _ => false

def Eff.isFailedPatch : Eff → Bool
  | Eff.patchStatus _ _ ok => !ok
  | _ => false

/-- Result of running a handler: final cache and the effect trace. -/
structure HRes where
  cache : Cache
  trace : List Eff

/-- `body.get('status', {}).get('create_fn', {}).get('syncedns', [])`. -/
def syncednsOf (body : PyVal) : PyVal :=
  ((body.getD "status" (PyVal.dict [])).getD "create_fn" (PyVal.dict [])).getD
    "syncedns" (PyVal.list [])

/-- Python `name.startswith(pre)` (over the character list, so proofs can
evaluate it). -/
def pyStartsWith (s pre : String) : Bool :=
  pre.data.isPrefixOf s.data

/-- The suffix of `s` after the first occurrence of `pat`, `none` when `pat`
does not occur. -/
def findSub : List Char → List Char → Option (List Char)
  | s, pat =>
    if pat.isPrefixOf s then Option.some (s.drop pat.length)
    else
      match s with
      | [] => Option.none
      | _ :: t => findSub t pat

/-- The `re.match(r'^runner-.*-project-.*-concurrent-.*$', name)` test: the
name decomposes as `runner-` ++ _ ++ `-project-` ++ _ ++ `-concurrent-` ++ _.
Matchability is equivalent to: after the `runner-` prefix there is an
occurrence of `-project-`, and after the first (hence earliest, which leaves
the longest tail) such occurrence an occurrence of `-concurrent-`. -/
def runnerMatch (name : String) : Bool :=
  pyStartsWith name "runner-" &&
  (match findSub (name.data.drop 7) "-project-".data with
   | Option.none => false
   | Option.some rest =>
     match findSub rest "-concurrent-".data with
     | Option.none => false
     | Option.some _ => true)

/-- `handlers.is_noise_secret`. -/
def is_noise_secret (name : String) (labels : PyVal) : Bool :=
  if pyStartsWith name "sh.helm.release.v1." then true
  else if pyEqStr (labels.getD "owner" PyVal.none) "helm" then true
  else if runnerMatch name then true
  else false

/-- `handlers.on_delete`: remove the csec from the cache first, then issue one
`delete_secret` per namespace of the body's `status.create_fn.syncedns`. -/
def on_delete (cache : Cache) (body : PyVal) (uid : String) (name : String) :
    HRes :=
  let cache1 := cacheRemove cache uid
  let syncedns := (syncednsOf body).toStrList
  { cache := cache1
    trace := Eff.cacheRemoveE uid :: syncedns.map fun ns => Eff.deleteSecret ns name }

/-- The `BaseClusterSecret(...)` value built from an event body (used by
`on_fields_avoid_or_match_namespace` and `on_field_data`). -/
def bodyToCsec (body : PyVal) (uid name : String) (synced : List String) :
    BaseClusterSecret :=
  { uid := uid
    name := name
    data := body.getD "data" PyVal.none
    metadata := body.getD "metadata" PyVal.none
    synced_namespace := synced
    type := body.getStrD "type" "Opaque"
    match_namespace := body.getD "matchNamespace" PyVal.none
    avoid_namespaces := body.getD "avoidNamespaces" PyVal.none }

/-- `handlers.on_fields_avoid_or_match_namespace`.  Python computes
`to_add`/`to_remove` as sets; we fix a deterministic order (first occurrences)
— only membership is observable.  The `get_cluster_secret` miss only logs. -/
def on_fields_avoid_or_match_namespace (env : Env) (cache : Cache)
    (name : String) (body : PyVal) (uid : String) (reason : String) : HRes :=
  if reason == "create" then { cache := cache, trace := [] }
  else
    let syncedns := (syncednsOf body).toStrList
    let updated_matched := env.getNsList body
    let to_add := (updated_matched.filter fun n => decide (n ∉ syncedns)).dedup
    let to_remove :=
      (syncedns.filter fun n => decide (n ∉ updated_matched)).dedup
    { cache := cacheSet cache (bodyToCsec body uid name updated_matched)
      trace :=
        (to_add.map fun ns => Eff.syncSecret ns body) ++
        (to_remove.map fun ns => Eff.deleteSecret ns name) ++
        [Eff.cacheSetE uid,
         Eff.patchStatus name updated_matched (env.patchOk name updated_matched)] }

/-- `handlers.on_field_data`: re-sync the body into every namespace of the
status `syncedns`, then update the cache (no status patch). -/
def on_field_data (cache : Cache) (body : PyVal) (name : String) (uid : String)
    (reason : String) : HRes :=
  if reason == "create" then { cache := cache, trace := [] }
  else
    let syncedns := (syncednsOf body).toStrList
    { cache := cacheSet cache (bodyToCsec body uid name syncedns)
      trace := (syncedns.map fun ns => Eff.syncSecret ns body) ++ [Eff.cacheSetE uid] }

/-- The minimal body `namespace_watcher` rebuilds from a cached csec. -/
def nwBody (c : BaseClusterSecret) : PyVal :=
  PyVal.dict
    [("metadata", c.metadata), ("data", c.data), ("type", PyVal.str c.type),
     ("matchNamespace", c.match_namespace), ("avoidNamespaces", c.avoid_namespaces)]

/-- Per-csec effects of one iteration of `namespace_watcher`'s loop.  On a
delete for a synced namespace, the fresh list is purged of the deleted name
(`if ns_name in ns_list_new: ns_list_new.remove(ns_name)` removes the first
occurrence, as `List.erase` does). -/
def nwItemTrace (env : Env) (reason nsName : String) (c : BaseClusterSecret) :
    List Eff :=
  let ns_list_new := env.getNsList (nwBody c)
  let createHit := reason == "create" && decide (nsName ∈ ns_list_new)
  let deleteHit := reason == "delete" && decide (nsName ∈ c.synced_namespace)
  let ns_list_new2 := if deleteHit then ns_list_new.erase nsName else ns_list_new
  if createHit || deleteHit then
    (if createHit then [Eff.syncSecret nsName (nwBody c)] else []) ++
    [Eff.cacheSetE c.uid,
     Eff.patchStatus c.name ns_list_new2 (env.patchOk c.name ns_list_new2)]
  else []

/-- Per-csec cache update of one iteration of `namespace_watcher`'s loop. -/
def nwItemUpd (env : Env) (reason nsName : String) (cache : Cache)
    (c : BaseClusterSecret) : Cache :=
  let ns_list_new := env.getNsList (nwBody c)
  let createHit := reason == "create" && decide (nsName ∈ ns_list_new)
  let deleteHit := reason == "delete" && decide (nsName ∈ c.synced_namespace)
  let ns_list_new2 := if deleteHit then ns_list_new.erase nsName else ns_list_new
  if createHit || deleteHit then
    cacheSet cache { c with synced_namespace := ns_list_new2 }
  else cache

/-- One iteration of `namespace_watcher`'s loop over the snapshot. -/
def nwStep (env : Env) (reason nsName : String) (acc : HRes)
    (c : BaseClusterSecret) : HRes :=
  { cache := nwItemUpd env reason nsName acc.cache c
    trace := acc.trace ++ nwItemTrace env reason nsName c }

/-- `handlers.namespace_watcher`: guard the reason, then iterate over a
snapshot of the cache, syncing into a created namespace / dropping a deleted
one, updating cache then patching status per changed csec. -/
def namespace_watcher (env : Env) (cache : Cache) (reason nsName : String) :
    HRes :=
  if reason == "create" || reason == "delete" then
    (cacheAll cache).foldl (nwStep env reason nsName)
      { cache := cache, trace := [] }
  else { cache := cache, trace := [] }

/-- `consts.CREATE_BY_ANNOTATION`.
Modelled from the spec: `consts.py` is not under `src/`; §6 fixes the
management-annotation key. -/
def MANAGED_BY_KEY : String := "clustersecret.io/managed-by"

/-- `consts.CREATE_BY_AUTHOR`.
Modelled from the spec: `consts.py` is not under `src/`; §6 fixes a constant
author string as the annotation value. -/
def MANAGED_BY_VALUE : String := "clustersecret-controller"

/-- Event-field extraction of `on_secret_event` (`event.get('type')`,
`event.get('object')`, and the metadata sub-fields). -/
def eventType (event : PyVal) : PyVal := event.getD "type" PyVal.none

def eventObj (event : PyVal) : PyVal := event.getD "object" PyVal.none

def eventMeta (event : PyVal) : PyVal :=
  (eventObj event).getD "metadata" (PyVal.dict [])

def eventName (event : PyVal) : String := (eventMeta event).getStrD "name" ""

def eventNs (event : PyVal) : String :=
  (eventMeta event).getStrD "namespace" ""

def eventLabels (event : PyVal) : PyVal :=
  (eventMeta event).getD "labels" (PyVal.dict [])

def eventAnnos (event : PyVal) : PyVal :=
  (eventMeta event).getD "annotations" (PyVal.dict [])

def etypeIs (event : PyVal) (s : String) : Bool := pyEqStr (eventType event) s

def etypeValid (event : PyVal) : Bool :=
  etypeIs event "ADDED" || etypeIs event "MODIFIED" || etypeIs event "DELETED"

/-- `event.get('object').get('annotations')` carries our management
annotation: `annotations.get(CREATE_BY_ANNOTATION) == CREATE_BY_AUTHOR`. -/
def eventIsManaged (event : PyVal) : Bool :=
  pyEqStr ((eventAnnos event).getD MANAGED_BY_KEY PyVal.none) MANAGED_BY_VALUE

/-- `cached.data.get('valueFrom', {}).get('secretKeyRef', {})`. -/
def secretKeyRefOf (c : BaseClusterSecret) : PyVal :=
  (c.data.getD "valueFrom" (PyVal.dict [])).getD "secretKeyRef" (PyVal.dict [])

/-- Whether a cached csec references the event subject as its source secret. -/
def isSourceFor (name nspace : String) (c : BaseClusterSecret) : Bool :=
  pyEqStr ((secretKeyRefOf c).getD "name" PyVal.none) name &&
  pyEqStr ((secretKeyRefOf c).getD "namespace" PyVal.none) nspace

/-- The minimal body `on_secret_event` rebuilds from a cached csec. -/
def csecBody (c : BaseClusterSecret) : PyVal :=
  PyVal.dict
    [("metadata", c.metadata), ("data", c.data), ("type", PyVal.str c.type)]

/-- The self-healing loop of `on_secret_event`'s DELETED branch: scan the
snapshot for the first csec owning the deleted secret;
`some effs` means the handler `return`ed (warnings skipped) with those
effects, `none` means the loop fell through.  A non-404 `ApiException` from
`read_namespace` is logged and the re-sync still happens. -/
def selfHeal (env : Env) (snapshot : List BaseClusterSecret)
    (name nspace : String) : Option (List Eff) :=
  match snapshot.find? fun c =>
      c.name == name && c.synced_namespace.contains nspace with
  | Option.none => Option.none
  | Option.some c =>
    match env.readNamespace nspace with
    | NsRead.phase p =>
      if p == "Terminating" then Option.some [Eff.readNamespace nspace]
      else Option.some
        [Eff.readNamespace nspace, Eff.syncSecret nspace (csecBody c)]
    | NsRead.apiErr status =>
      if status == 404 then Option.some [Eff.readNamespace nspace]
      else Option.some
        [Eff.readNamespace nspace, Eff.syncSecret nspace (csecBody c)]

/-- `handlers.on_secret_event`.  The two `all_cluster_secret()` iterations
are recorded as `cacheSnapshot` effects; the handler never writes the cache
and never deletes a secret. -/
def on_secret_event (env : Env) (cache : Cache) (event : PyVal) : HRes :=
  if (eventObj event).isFalsy || !(etypeValid event) then
    { cache := cache, trace := [] }
  else
    let name := eventName event
    let nspace := eventNs event
    if is_noise_secret name (eventLabels event) then
      { cache := cache, trace := [] }
    else
      let isManaged := eventIsManaged event
      let snapshot := cacheAll cache
      let source_for_csecs := snapshot.filter (isSourceFor name nspace)
      if !isManaged && source_for_csecs.isEmpty then
        { cache := cache, trace := [Eff.cacheSnapshot] }
      else
        let tAdd :=
          if etypeIs event "ADDED" || etypeIs event "MODIFIED" then
            source_for_csecs.flatMap fun c =>
              c.synced_namespace.map fun ns => Eff.syncSecret ns (csecBody c)
          else []
        let warnings := source_for_csecs.map fun c => Eff.logWarning c.name
        let tDel :=
          if etypeIs event "DELETED" then
            if isManaged then
              Eff.cacheSnapshot ::
                (match selfHeal env snapshot name nspace with
                 | Option.some effs => effs
                 | Option.none => warnings)
            else warnings
          else []
        { cache := cache, trace := Eff.cacheSnapshot :: (tAdd ++ tDel) }

/-- `metadata.get('uid')` of a listed custom object. -/
def itemUid (item : PyVal) : String :=
  (item.getD "metadata" PyVal.none).getStrD "uid" ""

/-- The `BaseClusterSecret(...)` built by `startup_fn` from one listed item. -/
def itemToCsec (item : PyVal) : BaseClusterSecret :=
  let metadata := item.getD "metadata" PyVal.none
  { uid := metadata.getStrD "uid" ""
    name := metadata.getStrD "name" ""
    data := item.getD "data" PyVal.none
    metadata := metadata
    synced_namespace := (syncednsOf item).toStrList
    type := item.getStrD "type" "Opaque"
    match_namespace := item.getD "matchNamespace" PyVal.none
    avoid_namespaces := item.getD "avoidNamespaces" PyVal.none }

/-- `handlers.startup_fn`: insert one cache entry per listed ClusterSecret;
no secret API calls are made (`items` is the result of
`get_custom_objects_by_kind`). -/
def startup_fn (cache : Cache) (items : List PyVal) : HRes :=
  { cache := items.foldl (fun c item => cacheSet c (itemToCsec item)) cache
    trace := items.map fun item => Eff.cacheSetE (itemUid item) }

/-! ### Cache lemmas -/

theorem cacheGet_cacheRemove_self (c : Cache) (u : String) :
    cacheGet (cacheRemove c u) u = Option.none := by
  induction c with
  | nil => rfl
  | cons kv t ih =>
    simp only [cacheRemove] at ih ⊢
    by_cases h : kv.1 = u
    · simpa [List.filter_cons, h] using ih
    · simp [List.filter_cons, bne_iff_ne, h, cacheGet, ih]

theorem cacheGet_map_replace_self (t : Cache) (u : String)
    (e : BaseClusterSecret) (h : t.any (fun kv => kv.1 == u) = true) :
    cacheGet (t.map fun kv => if kv.1 == u then (kv.1, e) else kv) u =
      Option.some e := by
  induction t with
  | nil => simp at h
  | cons kv t ih =>
    by_cases hk : kv.1 = u
    · simp [cacheGet, hk]
    · have ht : t.any (fun kv => kv.1 == u) = true := by
        simpa [List.any_cons, hk] using h
      simp only [List.map_cons]
      simp [cacheGet, hk]
      simpa using ih ht

theorem cacheGet_append_single (t : Cache) (u : String) (e : BaseClusterSecret)
    (h : ∀ kv ∈ t, kv.1 ≠ u) :
    cacheGet (t ++ [(u, e)]) u = Option.some e := by
  induction t with
  | nil => simp [cacheGet]
  | cons kv t ih =>
    have hk : kv.1 ≠ u := h kv (List.mem_cons_self kv t)
    simp only [List.cons_append]
    simp [cacheGet, hk]
    exact ih fun x hx => h x (List.mem_cons_of_mem kv hx)

theorem cacheGet_cacheSet_self (c : Cache) (e : BaseClusterSecret) :
    cacheGet (cacheSet c e) e.uid = Option.some e := by
  unfold cacheSet
  by_cases h : c.any (fun kv => kv.1 == e.uid) = true
  · simp only [h, if_true]
    exact cacheGet_map_replace_self c e.uid e h
  · simp only [eq_false_of_ne_true h, Bool.false_eq_true, if_false]
    refine cacheGet_append_single c e.uid e fun kv hkv he => h ?_
    exact List.any_eq_true.mpr ⟨kv, hkv, by simp [he]⟩

theorem cacheGet_map_replace_other (t : Cache) (u v : String)
    (e : BaseClusterSecret) (huv : u ≠ v) :
    cacheGet (t.map fun kv => if kv.1 == v then (kv.1, e) else kv) u =
      cacheGet t u := by
  induction t with
  | nil => rfl
  | cons kv t ih =>
    by_cases hk : kv.1 = v
    · simp only [List.map_cons]
      simp [cacheGet, hk, Ne.symm huv]
      simpa using ih
    · by_cases hu : kv.1 = u
      · simp [cacheGet, hk, hu, huv]
      · simp only [List.map_cons]
        simp [cacheGet, hk, hu]
        simpa using ih

theorem cacheGet_append_single_other (t : Cache) (u v : String)
    (e : BaseClusterSecret) (huv : u ≠ v) :
    cacheGet (t ++ [(v, e)]) u = cacheGet t u := by
  induction t with
  | nil => simp [cacheGet, Ne.symm huv]
  | cons kv t ih =>
    by_cases hu : kv.1 = u
    · simp [cacheGet, hu]
    · simp [cacheGet, hu, ih]

theorem cacheGet_cacheSet_other (c : Cache) (e : BaseClusterSecret)
    (u : String) (huv : u ≠ e.uid) :
    cacheGet (cacheSet c e) u = cacheGet c u := by
  unfold cacheSet
  by_cases h : c.any (fun kv => kv.1 == e.uid) = true
  · simp only [h, if_true]
    exact cacheGet_map_replace_other c u e.uid e huv
  · simp only [eq_false_of_ne_true h, Bool.false_eq_true, if_false]
    exact cacheGet_append_single_other c u e.uid e huv

theorem cacheGet_of_mem_nodup (cc : Cache) (u : String) (c : BaseClusterSecret)
    (hmem : (u, c) ∈ cc) (hnd : (cc.map Prod.fst).Nodup) :
    cacheGet cc u = Option.some c := by
  induction cc with
  | nil => cases hmem
  | cons kv t ih =>
    rcases List.mem_cons.mp hmem with h | h
    · cases h
      simp [cacheGet]
    · have hfst : u ∈ t.map Prod.fst := List.mem_map.mpr ⟨(u, c), h, rfl⟩
      simp only [List.map_cons, List.nodup_cons] at hnd
      have hne : kv.1 ≠ u := fun he => hnd.1 (he ▸ hfst)
      simp [cacheGet, hne, ih h hnd.2]

theorem cacheGet_foldl_of_ne {α : Type} (g : Cache → α → Cache)
    (key : α → String)
    (hg : ∀ cc a u, key a ≠ u → cacheGet (g cc a) u = cacheGet cc u)
    (l : List α) (cc : Cache) (u : String) (hl : ∀ a ∈ l, key a ≠ u) :
    cacheGet (l.foldl g cc) u = cacheGet cc u := by
  induction l generalizing cc with
  | nil => rfl
  | cons a t ih =>
    rw [List.foldl_cons, ih _ (fun x hx => hl x (List.mem_cons_of_mem a hx)),
      hg cc a u (hl a (List.mem_cons_self a t))]

/-! ### Generic helper lemmas -/

theorem pyEqStr_eq_true {v : PyVal} {s : String} :
    pyEqStr v s = true ↔ v = PyVal.str s := by
  cases v <;> simp [pyEqStr]

/-! ### Sample values (used by witnesses and counterexamples) -/

def env0 : Env :=
  { getNsList := fun _ => ["a", "b"]
    readNamespace := fun _ => NsRead.phase "Active"
    patchOk := fun _ _ => false }

def csec1 : BaseClusterSecret :=
  { uid := "u1"
    name := "s1"
    data := PyVal.dict [("key", PyVal.str "v")]
    metadata := PyVal.dict [("name", PyVal.str "s1")]
    synced_namespace := ["a"] }

def cache0 : Cache := [("u1", csec1)]

def body0 : PyVal :=
  PyVal.dict
    [("status", PyVal.dict
        [("create_fn", PyVal.dict [("syncedns", PyVal.list [PyVal.str "a"])])]),
     ("data", PyVal.dict [("key", PyVal.str "v2")]),
     ("metadata", PyVal.dict [("name", PyVal.str "s1")])]

def evNoise : PyVal :=
  PyVal.dict
    [("type", PyVal.str "DELETED"),
     ("object", PyVal.dict
        [("metadata", PyVal.dict
            [("name", PyVal.str "sh.helm.release.v1.app"),
             ("namespace", PyVal.str "ns"),
             ("labels", PyVal.dict [])])])]

/-! ### Claims -/

/-- C1: when a ClusterSecret is deleted, `on_delete` removes the uid's entry
from the in-memory cache before issuing any namespaced-secret delete: the
trace starts with the cache removal, the remaining effects are exactly one
`delete_secret` per namespace of the entry's last `syncedns` (no further
cache operation occurs), and the cache in force at every delete — the final
cache, since the removal is the sole cache write — holds no entry for the
uid. -/
theorem on_delete_cache_removed_before_deletes (cache : Cache) (body : PyVal)
    (uid name : String) :
    (on_delete cache body uid name).trace =
      Eff.cacheRemoveE uid ::
        ((syncednsOf body).toStrList.map fun ns => Eff.deleteSecret ns name) ∧
    cacheGet (on_delete cache body uid name).cache uid = Option.none ∧
    (on_delete cache body uid name).trace.tail.all
      (fun e => !e.isCacheWrite) = true := by
  refine ⟨rfl, cacheGet_cacheRemove_self cache uid, ?_⟩
  simp only [on_delete, List.tail_cons, List.all_eq_true]
  intro e he
  obtain ⟨ns, _, rfl⟩ := List.mem_map.mp he
  rfl

/-- C10: both field-change handlers are no-ops when invoked with reason
`create`: unchanged cache, empty effect trace. -/
theorem create_reason_handlers_noop (env : Env) (cache : Cache)
    (name : String) (body : PyVal) (uid : String) :
    on_fields_avoid_or_match_namespace env cache name body uid "create" =
      { cache := cache, trace := [] } ∧
    on_field_data cache body name uid "create" =
      { cache := cache, trace := [] } := by
  constructor <;> rfl

/-- C6: an event whose secret satisfies the noise filter (helm-release name
prefix, `owner=helm` label, or the GitLab-runner name pattern) makes
`on_secret_event` return before any per-event work: empty trace (in
particular no cache iteration, no API call, no sync or delete) and an
unchanged cache, regardless of event type. -/
theorem noise_secret_event_no_work (env : Env) (cache : Cache) (event : PyVal)
    (h : is_noise_secret (eventName event) (eventLabels event) = true) :
    (on_secret_event env cache event).trace = [] ∧
    (on_secret_event env cache event).cache = cache := by
  unfold on_secret_event
  by_cases h1 : ((eventObj event).isFalsy || !(etypeValid event)) = true
  · simp [h1]
  · simp [h1, h]

/-- Witness for C6 at a concrete helm-release event. -/
theorem noise_secret_event_no_work_witness :
    (on_secret_event env0 cache0 evNoise).trace = [] ∧
    (on_secret_event env0 cache0 evNoise).cache = cache0 :=
  noise_secret_event_no_work env0 cache0 evNoise (by rfl)

/-- The self-heal re-sync happens exactly when `read_namespace` reports
neither phase `Terminating` nor a 404 (any other API error is logged and the
re-sync still runs). -/
def NsRead.allowsHeal : NsRead → Bool
  | NsRead.phase p => p != "Terminating"
  | NsRead.apiErr status => status != 404

/-- Unfolding lemma: a non-noise DELETED event on a managed secret reaches
the self-heal loop; warnings run only when that loop falls through. -/
theorem on_secret_event_deleted_managed (env : Env) (cache : Cache)
    (event : PyVal)
    (hobj : (eventObj event).isFalsy = false)
    (htype : eventType event = PyVal.str "DELETED")
    (hnoise : is_noise_secret (eventName event) (eventLabels event) = false)
    (hmanaged : eventIsManaged event = true) :
    (on_secret_event env cache event).cache = cache ∧
    (on_secret_event env cache event).trace =
      Eff.cacheSnapshot :: Eff.cacheSnapshot ::
        (match selfHeal env (cacheAll cache) (eventName event) (eventNs event)
            with
         | Option.some effs => effs
         | Option.none =>
             ((cacheAll cache).filter
                 (isSourceFor (eventName event) (eventNs event))).map
               fun c => Eff.logWarning c.name) := by
  unfold on_secret_event
  simp [etypeValid, etypeIs, htype, pyEqStr, hobj, hnoise, hmanaged]

/-- Unfolding lemma: a non-noise DELETED event on an unmanaged secret only
warns, once per cached ClusterSecret referencing it as a source. -/
theorem on_secret_event_deleted_unmanaged (env : Env) (cache : Cache)
    (event : PyVal)
    (hobj : (eventObj event).isFalsy = false)
    (htype : eventType event = PyVal.str "DELETED")
    (hnoise : is_noise_secret (eventName event) (eventLabels event) = false)
    (hmanaged : eventIsManaged event = false) :
    (on_secret_event env cache event).cache = cache ∧
    (on_secret_event env cache event).trace =
      Eff.cacheSnapshot ::
        ((cacheAll cache).filter
            (isSourceFor (eventName event) (eventNs event))).map
          fun c => Eff.logWarning c.name := by
  unfold on_secret_event
  by_cases hempty :
      ((cacheAll cache).filter
        (isSourceFor (eventName event) (eventNs event))).isEmpty = true
  · simp [etypeValid, etypeIs, htype, pyEqStr, hobj, hnoise, hmanaged, hempty,
      List.isEmpty_iff.mp hempty]
  · simp [etypeValid, etypeIs, htype, pyEqStr, hobj, hnoise, hmanaged, hempty]

def evManaged : PyVal :=
  PyVal.dict
    [("type", PyVal.str "DELETED"),
     ("object", PyVal.dict
        [("metadata", PyVal.dict
            [("name", PyVal.str "s1"),
             ("namespace", PyVal.str "a"),
             ("labels", PyVal.dict []),
             ("annotations", PyVal.dict
                [(MANAGED_BY_KEY, PyVal.str MANAGED_BY_VALUE)])])])]

def envTerm : Env :=
  { getNsList := fun _ => ["a", "b"]
    readNamespace := fun _ => NsRead.phase "Terminating"
    patchOk := fun _ _ => true }

/-- C4: a DELETED event for a managed secret owned by a cached ClusterSecret
(name equal, event namespace in its synced list — `hfind` picks the first
such cache entry, as the loop does) whose namespace is neither Terminating
nor NotFound triggers exactly one re-apply: the sync calls in the trace are
exactly one `sync_secret` into the event namespace with the cached entry's
metadata, data and type; the cache is untouched. -/
theorem deleted_managed_secret_self_heals_once (env : Env) (cache : Cache)
    (event : PyVal) (c : BaseClusterSecret)
    (hobj : (eventObj event).isFalsy = false)
    (htype : eventType event = PyVal.str "DELETED")
    (hnoise : is_noise_secret (eventName event) (eventLabels event) = false)
    (hmanaged : eventIsManaged event = true)
    (hfind : (cacheAll cache).find? (fun c' =>
        c'.name == eventName event &&
        c'.synced_namespace.contains (eventNs event)) = Option.some c)
    (hread : (env.readNamespace (eventNs event)).allowsHeal = true) :
    (on_secret_event env cache event).trace.filter Eff.isSync =
      [Eff.syncSecret (eventNs event) (csecBody c)] ∧
    (on_secret_event env cache event).cache = cache := by
  obtain ⟨hc, ht⟩ :=
    on_secret_event_deleted_managed env cache event hobj htype hnoise hmanaged
  refine ⟨?_, hc⟩
  rw [ht]
  unfold selfHeal
  rw [hfind]
  cases hr : env.readNamespace (eventNs event) with
  | phase p =>
    rw [hr] at hread
    have hp : p ≠ "Terminating" := by simpa [NsRead.allowsHeal] using hread
    simp [hp, Eff.isSync]
  | apiErr status =>
    rw [hr] at hread
    have hs : status ≠ 404 := by simpa [NsRead.allowsHeal] using hread
    simp [hs, Eff.isSync]

/-- Witness for C4: deleting the managed copy of `csec1` in namespace `a`
(phase Active) re-syncs it exactly once. -/
theorem deleted_managed_secret_self_heals_once_witness :
    (on_secret_event env0 cache0 evManaged).trace.filter Eff.isSync =
      [Eff.syncSecret (eventNs evManaged) (csecBody csec1)] ∧
    (on_secret_event env0 cache0 evManaged).cache = cache0 :=
  deleted_managed_secret_self_heals_once env0 cache0 evManaged csec1
    (by rfl) (by rfl) (by rfl) (by rfl) (by rfl) (by rfl)

/-- C5: a DELETED event for a managed secret whose namespace is Terminating,
or whose namespace read returns 404/NotFound, triggers no re-apply: the trace
contains no sync call at all. -/
theorem deleted_managed_secret_no_heal_when_ns_gone (env : Env) (cache : Cache)
    (event : PyVal)
    (hobj : (eventObj event).isFalsy = false)
    (htype : eventType event = PyVal.str "DELETED")
    (hnoise : is_noise_secret (eventName event) (eventLabels event) = false)
    (hmanaged : eventIsManaged event = true)
    (hread : (env.readNamespace (eventNs event)).allowsHeal = false) :
    (on_secret_event env cache event).trace.filter Eff.isSync = [] := by
  obtain ⟨hc, ht⟩ :=
    on_secret_event_deleted_managed env cache event hobj htype hnoise hmanaged
  rw [ht]
  unfold selfHeal
  cases hfind : (cacheAll cache).find? (fun c' =>
      c'.name == eventName event &&
      c'.synced_namespace.contains (eventNs event)) with
  | none =>
    simp [Eff.isSync, List.filter_map, Function.comp]
  | some c =>
    cases hr : env.readNamespace (eventNs event) with
    | phase p =>
      rw [hr] at hread
      have hp : p = "Terminating" := by simpa [NsRead.allowsHeal] using hread
      simp [hp, Eff.isSync]
    | apiErr status =>
      rw [hr] at hread
      have hs : status = 404 := by simpa [NsRead.allowsHeal] using hread
      simp [hs, Eff.isSync]

/-- Witness for C5: same managed deletion, namespace now Terminating — no
re-apply. -/
theorem deleted_managed_secret_no_heal_when_ns_gone_witness :
    (on_secret_event envTerm cache0 evManaged).trace.filter Eff.isSync = [] :=
  deleted_managed_secret_no_heal_when_ns_gone envTerm cache0 evManaged
    (by rfl) (by rfl) (by rfl) (by rfl) (by rfl)

/-- A cached ClusterSecret referencing secret `s1` in namespace `a` as its
source via `data.valueFrom.secretKeyRef`. -/
def csecA : BaseClusterSecret :=
  { uid := "uA"
    name := "other"
    data := PyVal.dict
        [("valueFrom", PyVal.dict
            [("secretKeyRef", PyVal.dict
                [("name", PyVal.str "s1"), ("namespace", PyVal.str "a")])])]
    metadata := PyVal.dict [("name", PyVal.str "other")]
    synced_namespace := ["x"] }

def cacheC7 : Cache := [("uA", csecA), ("u1", csec1)]

/-- Counterexample to C7 as stated: the deleted secret `s1`/`a` is a source
secret (referenced by `csecA`), but it also carries the management annotation
and matches cached `csec1` by name and synced namespace, so the handler takes
the self-heal path and returns before logging any warning: the referencing
ClusterSecret gets no warning. -/
theorem deleted_source_secret_cex :
    ((cacheAll cacheC7).filter
        (isSourceFor (eventName evManaged) (eventNs evManaged))).length = 1 ∧
    (on_secret_event env0 cacheC7 evManaged).trace.filter Eff.isWarning =
      [] := by
  exact ⟨rfl, rfl⟩

/-- C7 (amended): on a DELETED event for a source secret, provided the event
does not take the managed self-heal path (the secret is unmanaged, or no
cached ClusterSecret matches it by name with the event namespace in its
synced list), the handler logs exactly one warning per referencing
ClusterSecret, performs no delete of any secret, and leaves the cache
unchanged. -/
theorem deleted_source_secret_warns_no_delete (env : Env) (cache : Cache)
    (event : PyVal)
    (hobj : (eventObj event).isFalsy = false)
    (htype : eventType event = PyVal.str "DELETED")
    (hnoise : is_noise_secret (eventName event) (eventLabels event) = false)
    (hsafe : eventIsManaged event = false ∨
      (cacheAll cache).find? (fun c' =>
        c'.name == eventName event &&
        c'.synced_namespace.contains (eventNs event)) = Option.none) :
    (on_secret_event env cache event).trace.filter Eff.isWarning =
      ((cacheAll cache).filter
          (isSourceFor (eventName event) (eventNs event))).map
        (fun c => Eff.logWarning c.name) ∧
    (on_secret_event env cache event).trace.filter Eff.isDelete = [] ∧
    (on_secret_event env cache event).cache = cache := by
  by_cases hm : eventIsManaged event = true
  · have hfind : (cacheAll cache).find? (fun c' =>
        c'.name == eventName event &&
        c'.synced_namespace.contains (eventNs event)) = Option.none := by
      rcases hsafe with h | h
      · rw [hm] at h; cases h
      · exact h
    obtain ⟨hc, ht⟩ :=
      on_secret_event_deleted_managed env cache event hobj htype hnoise hm
    rw [ht]
    unfold selfHeal
    rw [hfind]
    refine ⟨?_, ?_, hc⟩ <;>
      simp [Eff.isWarning, Eff.isDelete, List.filter_map, Function.comp]
  · have hm' : eventIsManaged event = false := eq_false_of_ne_true hm
    obtain ⟨hc, ht⟩ :=
      on_secret_event_deleted_unmanaged env cache event hobj htype hnoise hm'
    rw [ht]
    refine ⟨?_, ?_, hc⟩ <;>
      simp [Eff.isWarning, Eff.isDelete, List.filter_map, Function.comp]

def evSrcDel : PyVal :=
  PyVal.dict
    [("type", PyVal.str "DELETED"),
     ("object", PyVal.dict
        [("metadata", PyVal.dict
            [("name", PyVal.str "s1"),
             ("namespace", PyVal.str "a"),
             ("labels", PyVal.dict [])])])]

/-- Witness for the amended C7: deleting unmanaged source `s1`/`a` warns
exactly once (for `csecA`), deletes nothing, cache untouched. -/
theorem deleted_source_secret_warns_no_delete_witness :
    (on_secret_event env0 [("uA", csecA)] evSrcDel).trace.filter
        Eff.isWarning =
      ((cacheAll [("uA", csecA)]).filter
          (isSourceFor (eventName evSrcDel) (eventNs evSrcDel))).map
        (fun c => Eff.logWarning c.name) ∧
    (on_secret_event env0 [("uA", csecA)] evSrcDel).trace.filter
        Eff.isDelete = [] ∧
    (on_secret_event env0 [("uA", csecA)] evSrcDel).cache = [("uA", csecA)] :=
  deleted_source_secret_warns_no_delete env0 [("uA", csecA)] evSrcDel
    (by rfl) (by rfl) (by rfl) (Or.inl (by rfl))

/-- Counterexample to C3 as stated: with target `[a, b]` and synced `[a]`,
namespace `a` lies in `target ∩ synced_namespace` (= `to_update`), which the
claim says is always re-applied — yet the handler issues no sync for `a`. -/
theorem fields_change_to_update_cex :
    ("a" ∈ env0.getNsList body0 ∧ "a" ∈ (syncednsOf body0).toStrList) ∧
    ((on_fields_avoid_or_match_namespace env0 cache0 "s1" body0 "u1"
        "update").trace.any fun e =>
          match e with
          | Eff.syncSecret ns _ => ns == "a"
          | _ => false) = false := by
  exact ⟨⟨by decide, by decide⟩, rfl⟩

/-- C3 (amended): on a matchNamespace/avoidNamespaces change (reason other
than create), the handler applies the secret exactly in
`to_add = target − synced_namespace` and deletes it exactly in
`to_remove = synced_namespace − target`; the intersection
`target ∩ synced_namespace` is NOT re-applied. -/
theorem fields_change_syncs_added_only (env : Env) (cache : Cache)
    (name : String) (body : PyVal) (uid : String) (reason : String)
    (hreason : reason ≠ "create") :
    (∀ ns b, Eff.syncSecret ns b ∈
        (on_fields_avoid_or_match_namespace env cache name body uid
          reason).trace ↔
      (b = body ∧ ns ∈ env.getNsList body ∧
        ns ∉ (syncednsOf body).toStrList)) ∧
    (∀ ns n, Eff.deleteSecret ns n ∈
        (on_fields_avoid_or_match_namespace env cache name body uid
          reason).trace ↔
      (n = name ∧ ns ∈ (syncednsOf body).toStrList ∧
        ns ∉ env.getNsList body)) := by
  have hr : (reason == "create") = false := by simp [hreason]
  unfold on_fields_avoid_or_match_namespace
  rw [hr]
  simp only [Bool.false_eq_true, if_false]
  constructor
  · intro ns b
    simp only [List.mem_append, List.mem_map, List.mem_dedup, List.mem_filter,
      List.mem_cons, List.not_mem_nil, or_false, decide_eq_true_eq]
    constructor
    · intro h
      rcases h with (⟨a, ⟨ha1, ha2⟩, he⟩ | ⟨a, _, he⟩) | (he | he)
      · injection he with h1 h2
        subst h1; subst h2
        exact ⟨rfl, ha1, ha2⟩
      all_goals cases he
    · rintro ⟨rfl, h1, h2⟩
      exact Or.inl (Or.inl ⟨ns, ⟨h1, h2⟩, rfl⟩)
  · intro ns n
    simp only [List.mem_append, List.mem_map, List.mem_dedup, List.mem_filter,
      List.mem_cons, List.not_mem_nil, or_false, decide_eq_true_eq]
    constructor
    · intro h
      rcases h with (⟨a, _, he⟩ | ⟨a, ⟨ha1, ha2⟩, he⟩) | (he | he)
      · cases he
      · injection he with h1 h2
        subst h1; subst h2
        exact ⟨rfl, ha1, ha2⟩
      all_goals cases he
    · rintro ⟨rfl, h1, h2⟩
      exact Or.inl (Or.inr ⟨ns, ⟨h1, h2⟩, rfl⟩)

/-- Witness for the amended C3 at concrete inputs: `b` is in the target but
not synced, so it is synced. -/
theorem fields_change_syncs_added_only_witness :
    Eff.syncSecret "b" body0 ∈
      (on_fields_avoid_or_match_namespace env0 cache0 "s1" body0 "u1"
        "update").trace ↔
      (body0 = body0 ∧ "b" ∈ env0.getNsList body0 ∧
        "b" ∉ (syncednsOf body0).toStrList) :=
  (fields_change_syncs_added_only env0 cache0 "s1" body0 "u1" "update"
    (by decide)).1 "b" body0

/-- Counterexample to C2 as stated: the trace of a matchNamespace change
carries a failed status patch (`patchOk` is false in `env0`), yet the cached
`synced_namespace` was still advanced from `[a]` to the new list `[a, b]` —
the cache entry is published regardless of the patch outcome, not only after
patch success. -/
theorem cache_published_despite_failed_patch_cex :
    ((on_fields_avoid_or_match_namespace env0 cache0 "s1" body0 "u1"
        "update").trace.any Eff.isFailedPatch) = true ∧
    ((cacheGet cache0 "u1").map fun c => c.synced_namespace) =
      Option.some ["a"] ∧
    ((cacheGet (on_fields_avoid_or_match_namespace env0 cache0 "s1" body0 "u1"
        "update").cache "u1").map fun c => c.synced_namespace) =
      Option.some ["a", "b"] := by
  exact ⟨rfl, rfl, rfl⟩

/-- C2 (amended): in every handler that changes a ClusterSecret's synced
namespace set, the cache entry is published immediately BEFORE the status
patch is issued — the trace ends with the cache write followed by the patch,
carrying the same list — and publication is unconditional: the cached
`synced_namespace` equals the new list whatever the patch outcome.  Holds for
`on_fields_avoid_or_match_namespace` and for every iteration of
`namespace_watcher`'s loop. -/
theorem cache_published_before_patch (env : Env) (cache : Cache)
    (name : String) (body : PyVal) (uid : String) (reason : String)
    (hreason : reason ≠ "create") :
    (∃ pre,
      (on_fields_avoid_or_match_namespace env cache name body uid
          reason).trace =
        pre ++ [Eff.cacheSetE uid,
          Eff.patchStatus name (env.getNsList body)
            (env.patchOk name (env.getNsList body))] ∧
      pre.all (fun e => !e.isCacheWrite && !e.isPatch) = true) ∧
    ((cacheGet (on_fields_avoid_or_match_namespace env cache name body uid
        reason).cache uid).map fun c => c.synced_namespace) =
      Option.some (env.getNsList body) ∧
    (∀ reason' nsName c,
      nwItemTrace env reason' nsName c = [] ∨
      ∃ pre lst,
        nwItemTrace env reason' nsName c =
          pre ++ [Eff.cacheSetE c.uid,
            Eff.patchStatus c.name lst (env.patchOk c.name lst)] ∧
        pre.all (fun e => !e.isCacheWrite && !e.isPatch) = true) := by
  have hr : (reason == "create") = false := by simp [hreason]
  refine ⟨?_, ?_, ?_⟩
  · unfold on_fields_avoid_or_match_namespace
    rw [hr]
    simp only [Bool.false_eq_true, if_false]
    refine ⟨_ ++ _, by rw [List.append_assoc], ?_⟩
    simp only [List.all_append, List.all_eq_true, Bool.and_eq_true]
    constructor <;> intro e he <;> obtain ⟨ns, _, rfl⟩ := List.mem_map.mp he <;>
      exact ⟨rfl, rfl⟩
  · unfold on_fields_avoid_or_match_namespace
    rw [hr]
    simp only [Bool.false_eq_true, if_false]
    have h := cacheGet_cacheSet_self cache
      (bodyToCsec body uid name (env.getNsList body))
    simpa [bodyToCsec] using
      congrArg (Option.map fun c => c.synced_namespace) h
  · intro reason' nsName c
    unfold nwItemTrace
    by_cases hcr : (reason' == "create" &&
        decide (nsName ∈ env.getNsList (nwBody c))) = true
    · right
      rw [Bool.and_eq_true] at hcr
      obtain ⟨h1, h2⟩ := hcr
      have hv : reason' = "create" := by simpa using h1
      subst hv
      refine ⟨[Eff.syncSecret nsName (nwBody c)], env.getNsList (nwBody c),
        ?_, rfl⟩
      simp [h2]
    · by_cases hdel : (reason' == "delete" &&
          decide (nsName ∈ c.synced_namespace)) = true
      · rw [Bool.and_eq_true] at hdel
        obtain ⟨h1, h2⟩ := hdel
        have hv : reason' = "delete" := by simpa using h1
        subst hv
        right
        refine ⟨[], (env.getNsList (nwBody c)).erase nsName, ?_, rfl⟩
        simp [h2]
      · left
        simp [eq_false_of_ne_true hcr, eq_false_of_ne_true hdel]

/-- Witness for the amended C2: the failed patch in `env0` leaves the cache
advanced to the patch's list. -/
theorem cache_published_before_patch_witness :
    ((cacheGet (on_fields_avoid_or_match_namespace env0 cache0 "s1" body0 "u1"
        "update").cache "u1").map fun c => c.synced_namespace) =
      Option.some (env0.getNsList body0) :=
  (cache_published_before_patch env0 cache0 "s1" body0 "u1" "update"
    (by decide)).2.1

/-! ### namespace_watcher loop lemmas -/

theorem nwStep_trace (env : Env) (reason nsName : String)
    (l : List BaseClusterSecret) (acc : HRes) :
    (l.foldl (nwStep env reason nsName) acc).trace =
      acc.trace ++ l.flatMap (nwItemTrace env reason nsName) := by
  induction l generalizing acc with
  | nil => simp
  | cons c t ih =>
    simp [List.foldl_cons, nwStep, ih, List.flatMap_cons, List.append_assoc]

theorem nwStep_cache (env : Env) (reason nsName : String)
    (l : List BaseClusterSecret) (acc : HRes) :
    (l.foldl (nwStep env reason nsName) acc).cache =
      l.foldl (nwItemUpd env reason nsName) acc.cache := by
  induction l generalizing acc with
  | nil => rfl
  | cons c t ih => simp [List.foldl_cons, nwStep, ih]

theorem nw_delete_unfold (env : Env) (cache : Cache) (nsName : String) :
    namespace_watcher env cache "delete" nsName =
      (cacheAll cache).foldl (nwStep env "delete" nsName)
        { cache := cache, trace := [] } := by
  unfold namespace_watcher
  simp

theorem nwItemTrace_delete_hit (env : Env) (nsName : String)
    (c : BaseClusterSecret) (h : nsName ∈ c.synced_namespace) :
    nwItemTrace env "delete" nsName c =
      [Eff.cacheSetE c.uid,
       Eff.patchStatus c.name ((env.getNsList (nwBody c)).erase nsName)
         (env.patchOk c.name ((env.getNsList (nwBody c)).erase nsName))] := by
  unfold nwItemTrace
  simp [h]

theorem nwItemTrace_delete_miss (env : Env) (nsName : String)
    (c : BaseClusterSecret) (h : nsName ∉ c.synced_namespace) :
    nwItemTrace env "delete" nsName c = [] := by
  unfold nwItemTrace
  simp [h]

theorem nwItemUpd_delete_hit (env : Env) (nsName : String) (cc : Cache)
    (c : BaseClusterSecret) (h : nsName ∈ c.synced_namespace) :
    nwItemUpd env "delete" nsName cc c =
      cacheSet cc { c with synced_namespace :=
        (env.getNsList (nwBody c)).erase nsName } := by
  unfold nwItemUpd
  simp [h]

theorem nwItemUpd_delete_miss (env : Env) (nsName : String) (cc : Cache)
    (c : BaseClusterSecret) (h : nsName ∉ c.synced_namespace) :
    nwItemUpd env "delete" nsName cc c = cc := by
  unfold nwItemUpd
  simp [h]

theorem cacheGet_nwItemUpd_other (env : Env) (reason nsName : String)
    (cc : Cache) (c : BaseClusterSecret) (u : String) (hne : c.uid ≠ u) :
    cacheGet (nwItemUpd env reason nsName cc c) u = cacheGet cc u := by
  unfold nwItemUpd
  by_cases h : ((reason == "create" &&
        decide (nsName ∈ env.getNsList (nwBody c))) ||
      (reason == "delete" && decide (nsName ∈ c.synced_namespace))) = true
  · simp only [h, if_true]
    exact cacheGet_cacheSet_other cc _ u (Ne.symm hne)
  · simp [eq_false_of_ne_true h]

theorem nwItemTrace_no_delete (env : Env) (reason nsName : String)
    (c : BaseClusterSecret) :
    ∀ e ∈ nwItemTrace env reason nsName c, e.isDelete = false := by
  intro e he
  unfold nwItemTrace at he
  by_cases h1 : (reason == "create" &&
      decide (nsName ∈ env.getNsList (nwBody c))) = true
  · simp [h1] at he
    rcases he with rfl | rfl | rfl <;> rfl
  · by_cases h2 : (reason == "delete" &&
        decide (nsName ∈ c.synced_namespace)) = true
    · simp [eq_false_of_ne_true h1, h2] at he
      rcases he with rfl | rfl <;> rfl
    · simp [eq_false_of_ne_true h1, eq_false_of_ne_true h2] at he

theorem nwItemTrace_patch_name (env : Env) (reason nsName : String)
    (c : BaseClusterSecret) (nm : String) (lst : List String) (ok : Bool)
    (hin : Eff.patchStatus nm lst ok ∈ nwItemTrace env reason nsName c) :
    nm = c.name := by
  unfold nwItemTrace at hin
  by_cases h1 : (reason == "create" &&
      decide (nsName ∈ env.getNsList (nwBody c))) = true
  · simp [h1] at hin
    exact hin.1
  · by_cases h2 : (reason == "delete" &&
        decide (nsName ∈ c.synced_namespace)) = true
    · simp [eq_false_of_ne_true h1, h2] at hin
      exact hin.1
    · simp [eq_false_of_ne_true h1, eq_false_of_ne_true h2] at hin

theorem mem_cache_of_mem_cacheAll (cache : Cache) (c : BaseClusterSecret)
    (hwf : ∀ kv ∈ cache, kv.1 = kv.2.uid) (h : c ∈ cacheAll cache) :
    (c.uid, c) ∈ cache := by
  obtain ⟨kv, hkv, rfl⟩ := List.mem_map.mp h
  have hk := hwf kv hkv
  rw [← hk]
  exact hkv

theorem cache_keys_nodup (cache : Cache)
    (hwf : ∀ kv ∈ cache, kv.1 = kv.2.uid)
    (huid : ((cacheAll cache).map (fun c => c.uid)).Nodup) :
    (cache.map Prod.fst).Nodup := by
  have he : cache.map Prod.fst = (cacheAll cache).map (fun c => c.uid) := by
    unfold cacheAll
    rw [List.map_map]
    exact List.map_congr_left hwf
  rw [he]
  exact huid

theorem nodup_split_ne {α β : Type} (f : α → β) (l1 l2 : List α)
    (c : α) (hnd : ((l1 ++ c :: l2).map f).Nodup) :
    (∀ a ∈ l1, f a ≠ f c) ∧ (∀ a ∈ l2, f a ≠ f c) := by
  rw [List.map_append, List.map_cons, List.nodup_append] at hnd
  obtain ⟨h1, h2, hdisj⟩ := hnd
  rw [List.nodup_cons] at h2
  constructor
  · intro a ha he
    exact hdisj (List.mem_map.mpr ⟨a, ha, rfl⟩)
      (by rw [he]; exact List.mem_cons_self (f c) (l2.map f))
  · intro a ha he
    exact h2.1 (he ▸ List.mem_map.mpr ⟨a, ha, rfl⟩)

/-- C8: on a namespace DELETED event with name `n`, for every cached
ClusterSecret: no `delete_secret` call at all is issued; an entry whose
synced list contains `n` ends with `synced_namespace` equal to the fresh
target list purged of `n` (so `n` is gone even if the fresh listing still
contains it, the listing being duplicate-free) and its status is patched with
exactly that list; an entry whose synced list does not contain `n` keeps its
cache entry unchanged and receives no status patch. -/
theorem namespace_delete_removes_synced (env : Env) (cache : Cache)
    (nsName : String)
    (hwf : ∀ kv ∈ cache, kv.1 = kv.2.uid)
    (huid : ((cacheAll cache).map (fun c => c.uid)).Nodup)
    (hname : ((cacheAll cache).map (fun c => c.name)).Nodup) :
    ((namespace_watcher env cache "delete" nsName).trace.all
        fun e => !e.isDelete) = true ∧
    (∀ c ∈ cacheAll cache, nsName ∈ c.synced_namespace →
      cacheGet (namespace_watcher env cache "delete" nsName).cache c.uid =
        Option.some { c with synced_namespace :=
          (env.getNsList (nwBody c)).erase nsName } ∧
      ((env.getNsList (nwBody c)).Nodup →
        nsName ∉ (env.getNsList (nwBody c)).erase nsName) ∧
      Eff.patchStatus c.name ((env.getNsList (nwBody c)).erase nsName)
          (env.patchOk c.name ((env.getNsList (nwBody c)).erase nsName)) ∈
        (namespace_watcher env cache "delete" nsName).trace) ∧
    (∀ c ∈ cacheAll cache, nsName ∉ c.synced_namespace →
      cacheGet (namespace_watcher env cache "delete" nsName).cache c.uid =
        Option.some c ∧
      ∀ lst ok, Eff.patchStatus c.name lst ok ∉
        (namespace_watcher env cache "delete" nsName).trace) := by
  have htr : (namespace_watcher env cache "delete" nsName).trace =
      (cacheAll cache).flatMap (nwItemTrace env "delete" nsName) := by
    rw [nw_delete_unfold, nwStep_trace]
    rfl
  have hca : (namespace_watcher env cache "delete" nsName).cache =
      (cacheAll cache).foldl (nwItemUpd env "delete" nsName) cache := by
    rw [nw_delete_unfold, nwStep_cache]
  refine ⟨?_, ?_, ?_⟩
  · rw [htr, List.all_eq_true]
    intro e he
    obtain ⟨c, hc, hin⟩ := List.mem_flatMap.mp he
    rw [nwItemTrace_no_delete env "delete" nsName c e hin]
    rfl
  · intro c hc hsync
    obtain ⟨l1, l2, hsplit⟩ := List.append_of_mem hc
    refine ⟨?_, fun hnd => hnd.not_mem_erase, ?_⟩
    · rw [hca, hsplit, List.foldl_append, List.foldl_cons]
      have hl2 := (nodup_split_ne (fun c => c.uid) l1 l2 c (hsplit ▸ huid)).2
      rw [cacheGet_foldl_of_ne (nwItemUpd env "delete" nsName)
        (fun c => c.uid)
        (fun cc a u hne => cacheGet_nwItemUpd_other env "delete" nsName cc a u
          hne) l2 _ c.uid hl2]
      rw [nwItemUpd_delete_hit env nsName _ c hsync]
      exact cacheGet_cacheSet_self _ _
    · rw [htr]
      refine List.mem_flatMap.mpr ⟨c, hc, ?_⟩
      rw [nwItemTrace_delete_hit env nsName c hsync]
      exact List.mem_cons_of_mem _ (List.mem_cons_self _ _)
  · intro c hc hsync
    obtain ⟨l1, l2, hsplit⟩ := List.append_of_mem hc
    constructor
    · rw [hca, hsplit, List.foldl_append, List.foldl_cons]
      have hpair := nodup_split_ne (fun c => c.uid) l1 l2 c (hsplit ▸ huid)
      rw [cacheGet_foldl_of_ne (nwItemUpd env "delete" nsName)
        (fun c => c.uid)
        (fun cc a u hne => cacheGet_nwItemUpd_other env "delete" nsName cc a u
          hne) l2 _ c.uid hpair.2]
      rw [nwItemUpd_delete_miss env nsName _ c hsync]
      rw [cacheGet_foldl_of_ne (nwItemUpd env "delete" nsName)
        (fun c => c.uid)
        (fun cc a u hne => cacheGet_nwItemUpd_other env "delete" nsName cc a u
          hne) l1 _ c.uid hpair.1]
      exact cacheGet_of_mem_nodup cache c.uid c
        (mem_cache_of_mem_cacheAll cache c hwf hc)
        (cache_keys_nodup cache hwf huid)
    · intro lst ok hmem
      rw [htr] at hmem
      obtain ⟨cx, hcx, hin⟩ := List.mem_flatMap.mp hmem
      have hnm : c.name = cx.name :=
        nwItemTrace_patch_name env "delete" nsName cx c.name lst ok hin
      have hee : cx = c := List.inj_on_of_nodup_map hname hcx hc hnm.symm
      subst hee
      rw [nwItemTrace_delete_miss env nsName cx hsync] at hin
      cases hin

/-- Witness for C8: deleting namespace `a` drops it from `csec1`'s cached
synced list. -/
theorem namespace_delete_removes_synced_witness :
    cacheGet (namespace_watcher env0 cache0 "delete" "a").cache csec1.uid =
      Option.some { csec1 with synced_namespace :=
        (env0.getNsList (nwBody csec1)).erase "a" } :=
  ((namespace_delete_removes_synced env0 cache0 "a" (by decide) (by decide)
      (by decide)).2.1 csec1 (List.mem_singleton.mpr rfl) (by decide)).1

/-! ### startup lemmas -/

theorem cacheGet_foldl_itemSet (items : List PyVal) :
    ∀ (cache : Cache) (item : PyVal), item ∈ items →
      (items.map itemUid).Nodup →
      cacheGet (items.foldl (fun c it => cacheSet c (itemToCsec it)) cache)
          (itemUid item) = Option.some (itemToCsec item) := by
  induction items with
  | nil =>
    intro _ _ h _
    cases h
  | cons it t ih =>
    intro cache item hmem hnodup
    rw [List.foldl_cons]
    rcases List.mem_cons.mp hmem with h | h
    · subst h
      have hnotin : ∀ a ∈ t, itemUid a ≠ itemUid item := by
        simp only [List.map_cons, List.nodup_cons] at hnodup
        intro a ha he
        exact hnodup.1 (he ▸ List.mem_map.mpr ⟨a, ha, rfl⟩)
      rw [cacheGet_foldl_of_ne (fun c it => cacheSet c (itemToCsec it))
        itemUid
        (fun cc a u hne =>
          cacheGet_cacheSet_other cc (itemToCsec a) u (Ne.symm hne))
        t _ _ hnotin]
      exact cacheGet_cacheSet_self cache (itemToCsec item)
    · have hnd : (t.map itemUid).Nodup := by
        simp only [List.map_cons, List.nodup_cons] at hnodup
        exact hnodup.2
      exact ih (cacheSet cache (itemToCsec it)) item h hnd

theorem toStrList_map_str (ls : List String) :
    (PyVal.list (ls.map PyVal.str)).toStrList = ls := by
  induction ls with
  | nil => rfl
  | cons a t ih =>
    simp only [List.map_cons, PyVal.toStrList, List.filterMap_cons] at ih ⊢
    rw [ih]

/-- C9: at startup, every listed ClusterSecret gets one cache entry keyed by
its metadata uid, whose `synced_namespace` is the observed
`status.create_fn.syncedns` (the empty list when the status path is absent);
the loader performs no secret create/replace (sync), delete or status patch.
-/
theorem startup_populates_cache (cache : Cache) (items : List PyVal)
    (hnodup : (items.map itemUid).Nodup) :
    (∀ item ∈ items,
      cacheGet (startup_fn cache items).cache (itemUid item) =
        Option.some (itemToCsec item)) ∧
    ((startup_fn cache items).trace.all fun e =>
      !e.isSync && !e.isDelete && !e.isPatch) = true ∧
    (∀ item ∈ items, ∀ ls : List String,
      syncednsOf item = PyVal.list (ls.map PyVal.str) →
        (itemToCsec item).synced_namespace = ls) ∧
    (∀ item ∈ items,
      item.getD "status" (PyVal.dict []) = PyVal.dict [] →
        (itemToCsec item).synced_namespace = []) := by
  refine ⟨?_, ?_, ?_, ?_⟩
  · intro item hmem
    exact cacheGet_foldl_itemSet items cache item hmem hnodup
  · rw [List.all_eq_true]
    intro e he
    simp only [startup_fn] at he
    obtain ⟨item, _, rfl⟩ := List.mem_map.mp he
    rfl
  · intro item _ ls hsy
    show (syncednsOf item).toStrList = ls
    rw [hsy]
    exact toStrList_map_str ls
  · intro item _ hst
    show (syncednsOf item).toStrList = []
    unfold syncednsOf
    rw [hst]
    rfl

def item0 : PyVal :=
  PyVal.dict
    [("metadata", PyVal.dict
        [("uid", PyVal.str "u9"), ("name", PyVal.str "s9")]),
     ("data", PyVal.dict [("k", PyVal.str "v")]),
     ("status", PyVal.dict
        [("create_fn", PyVal.dict
            [("syncedns", PyVal.list [PyVal.str "ns1"])])])]

/-- Witness for C9 at one concrete listed item. -/
theorem startup_populates_cache_witness :
    cacheGet (startup_fn [] [item0]).cache (itemUid item0) =
      Option.some (itemToCsec item0) :=
  (startup_populates_cache [] [item0] (by decide)).1 item0
    (List.mem_singleton.mpr rfl)

end ClusterSecretOp
